import Mathlib

/-!
Verification of the conflict-region parser and resolution model of the
mergeai VS Code extension.

The embedding models the two parsers of the repository and the three
resolve commands of `src/extension.ts`:

* `extractMergeConflicts` (src/extension.ts, lines 97-161): splits the
  document on `'\n'`, walks the lines with `-1`-sentinel indices for the
  four conflict markers and pushes one conflict record per
  `>>>>>>>` line seen while `separatorIndex !== -1`.  The `-1` sentinels
  of the JS code are rendered as `Option Nat` (`none` ↔ `-1`).
* `parseMergeConflicts` (src/mergeHandler.ts, lines 119-136): repeatedly
  executes the regex
  `/<<<<<<< (.*?)\n([\s\S]*?)\n=======\n([\s\S]*?)\n>>>>>>> (.*?)(?:\n|$)/g`.
  Because `.` does not match `'\n'` and every lazy group is followed by a
  literal that therefore occurs at its first position, the regex semantics
  collapse to first-occurrence searches, which is how `matchConflictAt`
  is written.
* `resolveWithCurrent` / `resolveWithIncoming` / `resolveWithOriginal`
  (src/extension.ts, lines 744-816): re-extract the conflicts and replace
  the range from the start of the start-marker line to the start of the
  line after the end-marker line (the VS Code position
  `(endLine + 1, 0)`, clamped to the end of the document) with the chosen
  side's text.

Documents are `List Char`; a JS string literal `"…"` is written
`"…".data`.
-/

namespace MergeAI

/-- JS `text.split('\n')`: splitting on newlines; `"".split('\n')` is
`[""]`, and a trailing newline yields a final empty line. -/
def splitOnNl : List Char → List (List Char)
  | [] => [[]]
  | c :: t =>
    if c = '\n' then [] :: splitOnNl t
    else
      match splitOnNl t with
      | [] => [[c]]
      | l :: ls => (c :: l) :: ls

/-- JS `Array.prototype.slice(s, e)` for non-negative bounds: elements from
index `s` (inclusive) to `e` (exclusive), clamped to the array. -/
def jsSlice (l : List α) (s e : Nat) : List α := (l.take e).drop s

/-- JS slice whose end bound is the extractor's `commonAncestorEnd`
sentinel: `none` renders the JS value `-1`, which `slice` treats as
`length - 1`. -/
def jsSliceOpt (l : List α) (s : Nat) (e : Option Nat) : List α :=
  match e with
  | some e => jsSlice l s e
  | none => jsSlice l s (l.length - 1)

/-- One conflict record pushed by `extractMergeConflicts`
(src/extension.ts, lines 135-148), with exactly the source's fields. -/
structure Conflict where
  index : Nat
  current : List Char
  original : List Char
  incoming : List Char
  contextBefore : List Char
  contextAfter : List Char
  startLine : Nat
  endLine : Nat
  currentMarker : List Char
  incomingMarker : List Char
  hasCommonAncestor : Bool
deriving DecidableEq

/-- The loop state of `extractMergeConflicts`: the four `-1`-sentinel
line indices (`none` ↔ `-1`) and the conflicts accumulated so far. -/
structure ScanState where
  startIndex : Option Nat
  separatorIndex : Option Nat
  commonAncestorStart : Option Nat
  commonAncestorEnd : Option Nat
  conflicts : List Conflict
deriving DecidableEq

def initScan : ScanState := ⟨none, none, none, none, []⟩

/-- One iteration of the `for` loop of `extractMergeConflicts`
(src/extension.ts, lines 107-157) on the enumerated line `(i, line)`.
The source guards the push on `separatorIndex !== -1` only; since
`separatorIndex` is set solely while `startIndex !== -1` and both are
reset together, `startIndex` is also set whenever the push fires (proved
in `scan_sep_imp_start`), so the `none` fallback of the inner match is
unreachable. -/
def scanStep (lines : List (List Char)) (s : ScanState) :
    Nat × List Char → ScanState
  | (i, line) =>
  if "<<<<<<<".data.isPrefixOf line then
    { s with startIndex := some i }
  else if "|||||||".data.isPrefixOf line then
    { s with commonAncestorStart := some i }
  else if "=======".data.isPrefixOf line && s.startIndex.isSome then
    { s with
        separatorIndex := some i
        commonAncestorEnd :=
          if s.commonAncestorStart.isSome then some i else s.commonAncestorEnd }
  else if ">>>>>>>".data.isPrefixOf line && s.separatorIndex.isSome then
    match s.separatorIndex, s.startIndex with
    | some ksep, some kst =>
      { startIndex := none
        separatorIndex := none
        commonAncestorStart := none
        commonAncestorEnd := none
        conflicts := s.conflicts ++
          [{ index := s.conflicts.length
             current := List.intercalate ['\n']
               (jsSlice lines (kst + 1)
                 (match s.commonAncestorStart with
                  | some v => v
                  | none => ksep))
             original :=
               match s.commonAncestorStart with
               | some v =>
                 List.intercalate ['\n'] (jsSliceOpt lines (v + 1) s.commonAncestorEnd)
               | none => []
             incoming := List.intercalate ['\n'] (jsSlice lines (ksep + 1) i)
             contextBefore := List.intercalate ['\n'] (jsSlice lines (kst - 3) kst)
             contextAfter :=
               List.intercalate ['\n'] (jsSlice lines (i + 1) (min lines.length (i + 4)))
             startLine := kst
             endLine := i
             currentMarker := lines.getD kst []
             incomingMarker := lines.getD i []
             hasCommonAncestor := s.commonAncestorStart.isSome }] }
    | _, _ => s
  else s

/-- `extractMergeConflicts` (src/extension.ts, lines 97-161). -/
def extractMergeConflicts (text : List Char) : List Conflict :=
  let lines := splitOnNl text
  (List.foldl (scanStep lines) initScan lines.enum).conflicts

/-- Index of the first occurrence of `pat` in `s`, or `none`; used both
for the `includes` tests of `hasMergeConflicts` and for the lazy regex
groups of `parseMergeConflicts`. -/
def findSub (pat : List Char) : List Char → Option Nat
  | [] => if pat.isEmpty then some 0 else none
  | c :: rest =>
    if pat.isPrefixOf (c :: rest) then some 0
    else (findSub pat rest).map (· + 1)

/-- `hasMergeConflicts` (src/extension.ts, lines 88-90): three raw
substring (`String.prototype.includes`) tests. -/
def hasMergeConflicts (text : List Char) : Bool :=
  ((findSub "<<<<<<<".data text).isSome && (findSub "=======".data text).isSome) &&
    (findSub ">>>>>>>".data text).isSome

/-- The document prefix up to the start of line `k`: the first `k` lines,
each followed by the `'\n'` that ended it. -/
def joinLinesNl (ls : List (List Char)) : List Char :=
  ls.foldr (fun l acc => l ++ '\n' :: acc) []

/-- The edit performed by the resolve commands (src/extension.ts,
lines 757-762 and analogous): replace the range from the start of line
`startLine` to the start of line `endLine + 1` (VS Code clamps that
position to the document end when the end-marker line is last) with
`repl`. -/
def spliceResolve (text : List Char) (startLine endLine : Nat)
    (repl : List Char) : List Char :=
  let lines := splitOnNl text
  joinLinesNl (lines.take startLine) ++ repl ++
    List.intercalate ['\n'] (lines.drop (endLine + 1))

/-- `resolveWithCurrent` (src/extension.ts, lines 770-790): no edit when
`conflictIndex >= conflicts.length`, otherwise splice in
`conflict.current`. -/
def resolveWithCurrent (text : List Char) (conflictIndex : Nat) : List Char :=
  match (extractMergeConflicts text).get? conflictIndex with
  | none => text
  | some c => spliceResolve text c.startLine c.endLine c.current

/-- `resolveWithIncoming` (src/extension.ts, lines 796-816). -/
def resolveWithIncoming (text : List Char) (conflictIndex : Nat) : List Char :=
  match (extractMergeConflicts text).get? conflictIndex with
  | none => text
  | some c => spliceResolve text c.startLine c.endLine c.incoming

/-- `resolveWithOriginal` (src/extension.ts, lines 744-764): splices
`conflict.hasCommonAncestor ? conflict.original : conflict.current`. -/
def resolveWithOriginal (text : List Char) (conflictIndex : Nat) : List Char :=
  match (extractMergeConflicts text).get? conflictIndex with
  | none => text
  | some c =>
    spliceResolve text c.startLine c.endLine
      (if c.hasCommonAncestor then c.original else c.current)

/-- extension.ts surfaces no diagnostics from `extractMergeConflicts`:
the function returns the `conflicts` array alone (line 160) and defines
no issue or error channel, so the list of malformed-marker issues a
caller can observe is empty for every input. -/
def extractionIssues (_text : List Char) : List Nat := []

/-- The four capture groups of one regex match of `parseMergeConflicts`,
together with the length of the whole match. -/
structure RegexMatch where
  header : List Char
  localText : List Char
  remote : List Char
  footer : List Char
  len : Nat
deriving DecidableEq

/-- One attempt of the mergeHandler.ts regex at the start of `s`.  The
pattern is `<<<<<<< (.*?)\n([\s\S]*?)\n=======\n([\s\S]*?)\n>>>>>>> (.*?)(?:\n|$)`:
`.` excludes `'\n'`, so group 1 is the rest of the marker line, and each
lazy group stops at the first occurrence of the literal that follows it
(a later occurrence can never rescue a failed continuation, because the
remaining search space only shrinks). -/
def matchConflictAt (s : List Char) : Option RegexMatch :=
  if "<<<<<<< ".data.isPrefixOf s then
    match findSub ['\n'] (s.drop 8) with
    | none => none
    | some h =>
      match findSub "\n=======\n".data ((s.drop 8).drop (h + 1)) with
      | none => none
      | some l =>
        match findSub "\n>>>>>>> ".data (((s.drop 8).drop (h + 1)).drop (l + 9)) with
        | none => none
        | some r =>
          match findSub ['\n'] ((((s.drop 8).drop (h + 1)).drop (l + 9)).drop (r + 9)) with
          | none =>
            some ⟨(s.drop 8).take h, ((s.drop 8).drop (h + 1)).take l,
              (((s.drop 8).drop (h + 1)).drop (l + 9)).take r,
              (((s.drop 8).drop (h + 1)).drop (l + 9)).drop (r + 9),
              8 + (h + 1) + l + 9 + r + 9 +
                ((((s.drop 8).drop (h + 1)).drop (l + 9)).drop (r + 9)).length⟩
          | some f =>
            some ⟨(s.drop 8).take h, ((s.drop 8).drop (h + 1)).take l,
              (((s.drop 8).drop (h + 1)).drop (l + 9)).take r,
              ((((s.drop 8).drop (h + 1)).drop (l + 9)).drop (r + 9)).take f,
              8 + (h + 1) + l + 9 + r + 9 + (f + 1)⟩
  else none

/-- One conflict record of `parseMergeConflicts` (src/mergeHandler.ts,
lines 126-133).  The source fields `start`, `end`, `header`, `local`,
`remote`, `footer` are rendered as `start`, `stop`, `header`,
`localText`, `remote`, `footer` (`end` and `local` are Lean keywords). -/
structure RegexConflict where
  start : Nat
  stop : Nat
  header : List Char
  localText : List Char
  remote : List Char
  footer : List Char
deriving DecidableEq

/-- The `while ((match = regex.exec(text)) !== null)` loop: scan for the
leftmost match at or after the current position, record it, and continue
at `lastIndex = match.index + match[0].length`.  The loop terminates
because every match consumes at least the eight characters `<<<<<<< `;
the recursion is made structural on a fuel initialised to the text
length, which `parseLoopF_fuel` style length accounting shows is never
exhausted (whenever the suffix is nonempty, so is the fuel). -/
def parseLoopF : Nat → List Char → Nat → List RegexConflict
  | 0, _, _ => []
  | _ + 1, [], _ => []
  | fuel + 1, c :: rest, base =>
    match matchConflictAt (c :: rest) with
    | some m =>
      ⟨base, base + m.len, m.header, m.localText, m.remote, m.footer⟩ ::
        parseLoopF fuel ((c :: rest).drop m.len) (base + m.len)
    | none => parseLoopF fuel rest (base + 1)

/-- `parseMergeConflicts` (src/mergeHandler.ts, lines 119-136). -/
def parseMergeConflicts (text : List Char) : List RegexConflict :=
  parseLoopF text.length text 0

/-- Invariant of the `extractMergeConflicts` loop before processing line
`n`: a recorded start marker lies before line `n` and after every pushed
conflict; a recorded separator implies a recorded start (both are reset
together and the separator branch is guarded by `startIndex !== -1`);
pushed conflicts are pairwise ordered and each spans forward. -/
def ScanInv (n : Nat) (s : ScanState) : Prop :=
  (∀ k, s.startIndex = some k → k < n ∧ ∀ c ∈ s.conflicts, c.endLine < k) ∧
  (s.separatorIndex.isSome = true → s.startIndex.isSome = true) ∧
  List.Pairwise (fun a b => a.endLine < b.startLine) s.conflicts ∧
  (∀ c ∈ s.conflicts, c.startLine < c.endLine ∧ c.endLine < n)

/-- A line that starts with none of the four conflict markers; the scan
loop leaves its whole state unchanged on such a line. -/
def noMarkerLine (l : List Char) : Prop :=
  ("<<<<<<<".data.isPrefixOf l) = false ∧ ("|||||||".data.isPrefixOf l) = false ∧
  ("=======".data.isPrefixOf l) = false ∧ (">>>>>>>".data.isPrefixOf l) = false

/-- A line that starts with neither `<<<<<<<` nor `=======`.  While no
separator has been recorded yet, such a line can affect only
`commonAncestorStart` (a `|||||||` line overwrites it, anything else is
a no-op), so a later base-marker line erases the segment's effect. -/
def noStartOrSepLine (l : List Char) : Prop :=
  ("<<<<<<<".data.isPrefixOf l) = false ∧ ("=======".data.isPrefixOf l) = false

instance (l : List Char) : Decidable (noMarkerLine l) := by
  unfold noMarkerLine; infer_instance

instance (l : List Char) : Decidable (noStartOrSepLine l) := by
  unfold noStartOrSepLine; infer_instance

/-! ### Basic facts about the helpers -/

lemma splitOnNl_ne_nil : ∀ t : List Char, splitOnNl t ≠ []
  | [] => by simp [splitOnNl]
  | c :: t => by
    simp only [splitOnNl]
    split
    · simp
    · split <;> simp

lemma isPrefixOf_of_append (p q t : List Char)
    (h : ((p ++ q).isPrefixOf t) = true) : p.isPrefixOf t = true := by
  induction p generalizing t with
  | nil => simp [List.isPrefixOf]
  | cons a p ih =>
    cases t with
    | nil => simp [List.isPrefixOf] at h
    | cons b t =>
      simp only [List.cons_append, List.isPrefixOf, Bool.and_eq_true] at h ⊢
      exact ⟨h.1, ih t h.2⟩

/-- A newline-free prefix of the text is a prefix of its first line. -/
lemma prefix_splitOnNl_head (m : List Char) (hm : ('\n' : Char) ∉ m) :
    ∀ t, m.isPrefixOf t = true →
      ∃ l0 ls, splitOnNl t = l0 :: ls ∧ m.isPrefixOf l0 = true := by
  induction m with
  | nil =>
    intro t _
    obtain ⟨l0, ls, h⟩ := List.exists_cons_of_ne_nil (splitOnNl_ne_nil t)
    exact ⟨l0, ls, h, by simp [List.isPrefixOf]⟩
  | cons a m ih =>
    intro t hp
    cases t with
    | nil => simp [List.isPrefixOf] at hp
    | cons b t =>
      simp only [List.isPrefixOf, Bool.and_eq_true, beq_iff_eq] at hp
      obtain ⟨rfl, hmt⟩ := hp
      have ha : a ≠ '\n' := fun h => hm (h ▸ List.mem_cons_self a m)
      obtain ⟨l0, ls, heq, hpre⟩ := ih (fun h => hm (List.mem_cons_of_mem a h)) t hmt
      refine ⟨a :: l0, ls, ?_, ?_⟩
      · simp only [splitOnNl, if_neg ha, heq]
      · simp [List.isPrefixOf, hpre]

/-- A newline-free string standing right after a `'\n'` of the text is a
prefix of one of the (non-first) lines of the text. -/
lemma nl_prefix_line (m : List Char) (hm : ('\n' : Char) ∉ m) :
    ∀ (t : List Char) (j : Nat), (('\n' :: m).isPrefixOf (t.drop j)) = true →
      ∃ l ∈ (splitOnNl t).tail, m.isPrefixOf l = true := by
  intro t
  induction t with
  | nil => intro j h; simp [List.isPrefixOf] at h
  | cons c t ih =>
    intro j h
    cases j with
    | zero =>
      simp only [List.drop_zero, List.isPrefixOf, Bool.and_eq_true, beq_iff_eq] at h
      obtain ⟨hc, hmt⟩ := h
      obtain ⟨l0, ls, heq, hpre⟩ := prefix_splitOnNl_head m hm t hmt
      subst hc
      refine ⟨l0, ?_, hpre⟩
      simp [splitOnNl, heq]
    | succ j =>
      have h2 : (('\n' :: m).isPrefixOf (t.drop j)) = true := by
        simpa using h
      obtain ⟨l, hl, hpre⟩ := ih j h2
      by_cases hc : c = '\n'
      · refine ⟨l, ?_, hpre⟩
        simp only [splitOnNl, if_pos hc, List.tail_cons]
        exact List.mem_of_mem_tail hl
      · obtain ⟨l0, ls, heq⟩ := List.exists_cons_of_ne_nil (splitOnNl_ne_nil t)
        refine ⟨l, ?_, hpre⟩
        simp only [splitOnNl, if_neg hc, heq, List.tail_cons]
        rw [heq] at hl
        simpa using hl

lemma findSub_eq_none (pat : List Char) :
    ∀ t : List Char, (∀ j, pat.isPrefixOf (t.drop j) = false) →
      findSub pat t = none := by
  intro t
  induction t with
  | nil =>
    intro h
    have h0 := h 0
    simp only [List.drop_nil] at h0
    have : pat.isEmpty = false := by
      cases pat with
      | nil => simp [List.isPrefixOf] at h0
      | cons a p => simp
    simp [findSub, this]
  | cons c t ih =>
    intro h
    have h0 := h 0
    simp only [List.drop_zero] at h0
    have ht : findSub pat t = none := ih (fun j => by simpa using h (j + 1))
    simp [findSub, h0, ht]

/-! ### The regex parser: failure and ordering lemmas -/

/-- Every regex match consumes at least the `<<<<<<< ` literal. -/
lemma matchConflictAt_len_pos (s : List Char) (m : RegexMatch)
    (h : matchConflictAt s = some m) : 0 < m.len := by
  unfold matchConflictAt at h
  split at h
  · split at h
    · exact absurd h (by simp)
    · split at h
      · exact absurd h (by simp)
      · split at h
        · exact absurd h (by simp)
        · split at h <;> (cases h; simp)
  · exact absurd h (by simp)

/-- If the nine-character separator block `"\n=======\n"` occurs nowhere
in `s`, the regex cannot match at the start of `s`. -/
lemma matchConflictAt_eq_none (s : List Char)
    (hs : ∀ j, ("\n=======\n".data.isPrefixOf (s.drop j)) = false) :
    matchConflictAt s = none := by
  unfold matchConflictAt
  split
  · split
    · rfl
    · next h1 _ =>
      have hsep : findSub "\n=======\n".data ((s.drop 8).drop (h1 + 1)) = none := by
        apply findSub_eq_none
        intro j
        rw [List.drop_drop, List.drop_drop]
        exact hs _
      rw [hsep]
  · rfl

lemma parseLoopF_eq_nil (fuel : Nat) :
    ∀ (s : List Char) (base : Nat),
      (∀ k, matchConflictAt (s.drop k) = none) → parseLoopF fuel s base = [] := by
  induction fuel with
  | zero => intro s base _; rfl
  | succ fuel ih =>
    intro s base h
    cases s with
    | nil => rfl
    | cons c rest =>
      have h0 : matchConflictAt (c :: rest) = none := by simpa using h 0
      simp only [parseLoopF, h0]
      exact ih rest (base + 1) (fun k => by simpa using h (k + 1))

/-- If no line of the document starts with `=======`, the separator
block `"\n=======\n"` occurs nowhere in the document. -/
lemma no_sep_prefix (text : List Char)
    (h : ∀ l ∈ splitOnNl text, ("=======".data.isPrefixOf l) = false) :
    ∀ j, ("\n=======\n".data.isPrefixOf (text.drop j)) = false := by
  intro j
  by_contra hcon
  rw [Bool.not_eq_false] at hcon
  have hw : (("\n=======".data ++ ['\n']).isPrefixOf (text.drop j)) = true := by
    have he : "\n=======".data ++ ['\n'] = "\n=======\n".data := by decide
    rw [he]; exact hcon
  have h2 := isPrefixOf_of_append "\n=======".data ['\n'] _ hw
  have hpre : (('\n' :: "=======".data).isPrefixOf (text.drop j)) = true := by
    have he : ('\n' :: "=======".data) = "\n=======".data := by decide
    rw [he]; exact h2
  obtain ⟨l, hl, hlpre⟩ := nl_prefix_line "=======".data (by decide) text j hpre
  have hfal := h l (List.mem_of_mem_tail hl)
  rw [hfal] at hlpre
  exact Bool.false_ne_true hlpre

/-- If no line of the document starts with `=======`, the regex parser
finds nothing: a match needs the separator on a line of its own,
surrounded by newlines. -/
lemma parse_nil_of_no_sep_line (text : List Char)
    (h : ∀ l ∈ splitOnNl text, ("=======".data.isPrefixOf l) = false) :
    parseMergeConflicts text = [] := by
  apply parseLoopF_eq_nil
  intro k
  apply matchConflictAt_eq_none
  intro j
  rw [List.drop_drop]
  exact no_sep_prefix text h _

lemma parseLoopF_start_ge (fuel : Nat) :
    ∀ (s : List Char) (base : Nat), ∀ c ∈ parseLoopF fuel s base, base ≤ c.start := by
  induction fuel with
  | zero => intro s base c hc; simp [parseLoopF] at hc
  | succ fuel ih =>
    intro s base c hc
    cases s with
    | nil => simp [parseLoopF] at hc
    | cons a rest =>
      cases hm : matchConflictAt (a :: rest) with
      | none =>
        simp only [parseLoopF, hm] at hc
        have := ih rest (base + 1) c hc
        omega
      | some m =>
        simp only [parseLoopF, hm, List.mem_cons] at hc
        rcases hc with rfl | hc
        · simp
        · have := ih _ (base + m.len) c hc
          omega

/-- The regex parser's matches are emitted left to right: each one starts
no earlier than where the previous one stopped, and each spans at least
one character. -/
lemma parseLoopF_sorted (fuel : Nat) :
    ∀ (s : List Char) (base : Nat),
      List.Pairwise (fun a b => a.stop ≤ b.start) (parseLoopF fuel s base) ∧
      ∀ c ∈ parseLoopF fuel s base, c.start < c.stop := by
  induction fuel with
  | zero => intro s base; simp [parseLoopF]
  | succ fuel ih =>
    intro s base
    cases s with
    | nil => simp [parseLoopF]
    | cons a rest =>
      cases hm : matchConflictAt (a :: rest) with
      | none => simpa only [parseLoopF, hm] using ih rest (base + 1)
      | some m =>
        have hlen := matchConflictAt_len_pos _ _ hm
        obtain ⟨ihp, ihlt⟩ := ih ((a :: rest).drop m.len) (base + m.len)
        constructor
        · simp only [parseLoopF, hm, List.pairwise_cons]
          refine ⟨fun b hb => ?_, ihp⟩
          have := parseLoopF_start_ge fuel _ (base + m.len) b hb
          simpa using this
        · simp only [parseLoopF, hm, List.mem_cons]
          rintro c (rfl | hc)
          · simp; omega
          · exact ihlt c hc

/-! ### The line scanner: state invariants -/

lemma scanStep_eq_start (lines : List (List Char)) (s : ScanState)
    (i : Nat) (line : List Char) (c1 : ("<<<<<<<".data.isPrefixOf line) = true) :
    scanStep lines s (i, line) = { s with startIndex := some i } := by
  simp only [scanStep]
  rw [if_pos c1]

lemma scanStep_eq_base (lines : List (List Char)) (s : ScanState)
    (i : Nat) (line : List Char)
    (c1 : ("<<<<<<<".data.isPrefixOf line) = false)
    (c2 : ("|||||||".data.isPrefixOf line) = true) :
    scanStep lines s (i, line) = { s with commonAncestorStart := some i } := by
  simp only [scanStep]
  rw [if_neg (by simp [c1]), if_pos c2]

lemma scanStep_eq_sep (lines : List (List Char)) (s : ScanState)
    (i : Nat) (line : List Char)
    (c1 : ("<<<<<<<".data.isPrefixOf line) = false)
    (c2 : ("|||||||".data.isPrefixOf line) = false)
    (c3 : ("=======".data.isPrefixOf line && s.startIndex.isSome) = true) :
    scanStep lines s (i, line) =
      { s with
          separatorIndex := some i
          commonAncestorEnd :=
            if s.commonAncestorStart.isSome then some i else s.commonAncestorEnd } := by
  simp only [scanStep]
  rw [if_neg (by simp [c1]), if_neg (by simp [c2]), if_pos c3]

lemma scanStep_eq_skip (lines : List (List Char)) (s : ScanState)
    (i : Nat) (line : List Char)
    (c1 : ("<<<<<<<".data.isPrefixOf line) = false)
    (c2 : ("|||||||".data.isPrefixOf line) = false)
    (c3 : ("=======".data.isPrefixOf line && s.startIndex.isSome) = false)
    (c4 : (">>>>>>>".data.isPrefixOf line && s.separatorIndex.isSome) = false) :
    scanStep lines s (i, line) = s := by
  simp only [scanStep]
  rw [if_neg (by simp [c1]), if_neg (by simp [c2]), if_neg (by simp [c3]),
    if_neg (by simp [c4])]

lemma scanStep_eq_push (lines : List (List Char)) (s : ScanState)
    (i : Nat) (line : List Char)
    (c1 : ("<<<<<<<".data.isPrefixOf line) = false)
    (c2 : ("|||||||".data.isPrefixOf line) = false)
    (c3 : ("=======".data.isPrefixOf line && s.startIndex.isSome) = false)
    (c4 : (">>>>>>>".data.isPrefixOf line && s.separatorIndex.isSome) = true)
    (ksep kst : Nat)
    (hksep : s.separatorIndex = some ksep) (hkst : s.startIndex = some kst) :
    ∃ cf : Conflict,
      scanStep lines s (i, line) = ⟨none, none, none, none, s.conflicts ++ [cf]⟩ ∧
      cf.startLine = kst ∧ cf.endLine = i ∧ cf.index = s.conflicts.length := by
  simp only [scanStep]
  rw [if_neg (by simp [c1]), if_neg (by simp [c2]), if_neg (by simp [c3]),
    if_pos c4, hksep, hkst]
  exact ⟨_, rfl, rfl, rfl, rfl⟩

/-- The push branch with every field spelled out, for computing the
record of a conflict symbolically. -/
lemma scanStep_eq_push_full (lines : List (List Char)) (s : ScanState)
    (i : Nat) (line : List Char)
    (c1 : ("<<<<<<<".data.isPrefixOf line) = false)
    (c2 : ("|||||||".data.isPrefixOf line) = false)
    (c3 : ("=======".data.isPrefixOf line && s.startIndex.isSome) = false)
    (c4 : (">>>>>>>".data.isPrefixOf line && s.separatorIndex.isSome) = true)
    (ksep kst : Nat)
    (hksep : s.separatorIndex = some ksep) (hkst : s.startIndex = some kst) :
    scanStep lines s (i, line) =
      ⟨none, none, none, none, s.conflicts ++
        [⟨s.conflicts.length,
          List.intercalate ['\n'] (jsSlice lines (kst + 1)
            (match s.commonAncestorStart with | some v => v | none => ksep)),
          (match s.commonAncestorStart with
           | some v => List.intercalate ['\n'] (jsSliceOpt lines (v + 1) s.commonAncestorEnd)
           | none => []),
          List.intercalate ['\n'] (jsSlice lines (ksep + 1) i),
          List.intercalate ['\n'] (jsSlice lines (kst - 3) kst),
          List.intercalate ['\n'] (jsSlice lines (i + 1) (min lines.length (i + 4))),
          kst, i, lines.getD kst [], lines.getD i [],
          s.commonAncestorStart.isSome⟩]⟩ := by
  simp only [scanStep]
  rw [if_neg (by simp [c1]), if_neg (by simp [c2]), if_neg (by simp [c3]),
    if_pos c4, hksep, hkst]

/-- A marker-free segment of lines never changes the scan state. -/
lemma foldl_seg_free (lines : List (List Char)) :
    ∀ (ls : List (List Char)) (n : Nat) (s : ScanState),
      (∀ l ∈ ls, noMarkerLine l) →
      List.foldl (scanStep lines) s (List.enumFrom n ls) = s := by
  intro ls
  induction ls with
  | nil => intro n s _; simp [List.enumFrom]
  | cons l ls ih =>
    intro n s h
    obtain ⟨h1, h2, h3, h4⟩ := h l (List.mem_cons_self l ls)
    simp only [List.enumFrom, List.foldl_cons]
    rw [scanStep_eq_skip lines s n l h1 h2 (by simp [h3]) (by simp [h4])]
    exact ih (n + 1) s (fun x hx => h x (List.mem_cons_of_mem l hx))

/-- `scanStep_eq_start` with the state written as a plain constructor, so
that chained rewrites keep every intermediate state literal. -/
lemma scanStep_mk_start (lines : List (List Char))
    (st sep cas casEnd : Option Nat) (conflicts : List Conflict)
    (i : Nat) (line : List Char) (c1 : ("<<<<<<<".data.isPrefixOf line) = true) :
    scanStep lines ⟨st, sep, cas, casEnd, conflicts⟩ (i, line) =
      ⟨some i, sep, cas, casEnd, conflicts⟩ :=
  scanStep_eq_start lines _ i line c1

lemma scanStep_mk_base (lines : List (List Char))
    (st sep cas casEnd : Option Nat) (conflicts : List Conflict)
    (i : Nat) (line : List Char)
    (c1 : ("<<<<<<<".data.isPrefixOf line) = false)
    (c2 : ("|||||||".data.isPrefixOf line) = true) :
    scanStep lines ⟨st, sep, cas, casEnd, conflicts⟩ (i, line) =
      ⟨st, sep, some i, casEnd, conflicts⟩ :=
  scanStep_eq_base lines _ i line c1 c2

lemma scanStep_mk_sep (lines : List (List Char))
    (kst : Nat) (sep cas casEnd : Option Nat) (conflicts : List Conflict)
    (i : Nat) (line : List Char)
    (c1 : ("<<<<<<<".data.isPrefixOf line) = false)
    (c2 : ("|||||||".data.isPrefixOf line) = false)
    (c3 : ("=======".data.isPrefixOf line) = true) :
    scanStep lines ⟨some kst, sep, cas, casEnd, conflicts⟩ (i, line) =
      ⟨some kst, some i, cas, if cas.isSome then some i else casEnd, conflicts⟩ :=
  scanStep_eq_sep lines _ i line c1 c2 (by simp [c3])

lemma scanStep_mk_push (lines : List (List Char))
    (kst ksep : Nat) (cas casEnd : Option Nat) (conflicts : List Conflict)
    (i : Nat) (line : List Char)
    (c1 : ("<<<<<<<".data.isPrefixOf line) = false)
    (c2 : ("|||||||".data.isPrefixOf line) = false)
    (c3 : ("=======".data.isPrefixOf line) = false)
    (c4 : (">>>>>>>".data.isPrefixOf line) = true) :
    scanStep lines ⟨some kst, some ksep, cas, casEnd, conflicts⟩ (i, line) =
      ⟨none, none, none, none, conflicts ++
        [⟨conflicts.length,
          List.intercalate ['\n'] (jsSlice lines (kst + 1)
            (match cas with | some v => v | none => ksep)),
          (match cas with
           | some v => List.intercalate ['\n'] (jsSliceOpt lines (v + 1) casEnd)
           | none => []),
          List.intercalate ['\n'] (jsSlice lines (ksep + 1) i),
          List.intercalate ['\n'] (jsSlice lines (kst - 3) kst),
          List.intercalate ['\n'] (jsSlice lines (i + 1) (min lines.length (i + 4))),
          kst, i, lines.getD kst [], lines.getD i [],
          cas.isSome⟩]⟩ :=
  scanStep_eq_push_full lines _ i line c1 c2 (by simp [c3]) (by simp [c4]) ksep kst
    rfl rfl

/-- While no separator is recorded, a segment with no `<<<<<<<` and no
`=======` line can change only `commonAncestorStart`. -/
lemma foldl_seg_nosep (lines : List (List Char)) :
    ∀ (ls : List (List Char)) (n : Nat) (st cas casEnd : Option Nat)
      (conflicts : List Conflict),
      (∀ l ∈ ls, noStartOrSepLine l) →
      ∃ cas2, List.foldl (scanStep lines) ⟨st, none, cas, casEnd, conflicts⟩
          (List.enumFrom n ls) =
        ⟨st, none, cas2, casEnd, conflicts⟩ := by
  intro ls
  induction ls with
  | nil => intro n st cas casEnd conflicts _; exact ⟨cas, by simp [List.enumFrom]⟩
  | cons l ls ih =>
    intro n st cas casEnd conflicts hml
    obtain ⟨h1, h3⟩ := hml l (List.mem_cons_self l ls)
    simp only [List.enumFrom, List.foldl_cons]
    by_cases h2 : ("|||||||".data.isPrefixOf l) = true
    · rw [scanStep_mk_base lines st none cas casEnd conflicts n l h1 h2]
      exact ih (n + 1) st (some n) casEnd conflicts
        (fun x hx => hml x (List.mem_cons_of_mem l hx))
    · rw [Bool.not_eq_true] at h2
      rw [scanStep_eq_skip lines _ n l h1 h2 (by simp [h3]) (by simp)]
      exact ih (n + 1) st cas casEnd conflicts
        (fun x hx => hml x (List.mem_cons_of_mem l hx))

lemma jsSlice_eq_nil (l : List α) (s e : Nat) (h : e ≤ s) : jsSlice l s e = [] := by
  unfold jsSlice
  have hlen : (l.take e).length ≤ e := by
    rw [List.length_take]
    exact Nat.min_le_left _ _
  exact List.drop_eq_nil_of_le (le_trans hlen h)

/-- Slicing out exactly the middle block of a three-part concatenation. -/
lemma jsSlice_middle (L X Y Z : List α) (s e : Nat) (hL : L = X ++ (Y ++ Z))
    (hs : s = X.length) (he : e = X.length + Y.length) : jsSlice L s e = Y := by
  subst hL hs he
  unfold jsSlice
  rw [List.take_append_eq_append_take, List.take_of_length_le (Nat.le_add_right _ _),
    Nat.add_sub_cancel_left, List.take_left, List.drop_left]

lemma scanStep_inv (lines : List (List Char)) (n : Nat) (l : List Char)
    (s : ScanState) (h : ScanInv n s) : ScanInv (n + 1) (scanStep lines s (n, l)) := by
  obtain ⟨h1, h2, h3, h4⟩ := h
  by_cases c1 : ("<<<<<<<".data.isPrefixOf l) = true
  · rw [scanStep_eq_start lines s n l c1]
    refine ⟨?_, fun _ => rfl, h3, ?_⟩
    · rintro k hk
      simp only [Option.some.injEq] at hk
      subst hk
      exact ⟨Nat.lt_succ_self n, fun c hc => (h4 c hc).2⟩
    · intro c hc
      have := h4 c hc
      omega
  rw [Bool.not_eq_true] at c1
  by_cases c2 : ("|||||||".data.isPrefixOf l) = true
  · rw [scanStep_eq_base lines s n l c1 c2]
    refine ⟨?_, h2, h3, ?_⟩
    · intro k hk
      have := h1 k hk
      exact ⟨by omega, this.2⟩
    · intro c hc
      have := h4 c hc
      omega
  rw [Bool.not_eq_true] at c2
  by_cases c3 : ("=======".data.isPrefixOf l && s.startIndex.isSome) = true
  · rw [scanStep_eq_sep lines s n l c1 c2 c3]
    refine ⟨?_, ?_, h3, ?_⟩
    · intro k hk
      have := h1 k hk
      exact ⟨by omega, this.2⟩
    · intro _
      exact (Bool.and_eq_true _ _ |>.mp c3).2
    · intro c hc
      have := h4 c hc
      omega
  rw [Bool.not_eq_true] at c3
  by_cases c4 : (">>>>>>>".data.isPrefixOf l && s.separatorIndex.isSome) = true
  · have hsep : s.separatorIndex.isSome = true := (Bool.and_eq_true _ _ |>.mp c4).2
    have hst : s.startIndex.isSome = true := h2 hsep
    obtain ⟨ksep, hksep⟩ := Option.isSome_iff_exists.mp hsep
    obtain ⟨kst, hkst⟩ := Option.isSome_iff_exists.mp hst
    obtain ⟨cf, heq, hst2, hend, _⟩ :=
      scanStep_eq_push lines s n l c1 c2 c3 c4 ksep kst hksep hkst
    rw [heq]
    have hk := h1 kst hkst
    refine ⟨?_, ?_, ?_, ?_⟩
    · rintro k hk2
      simp at hk2
    · intro hcon
      simp at hcon
    · refine List.pairwise_append.mpr ⟨h3, by simp, ?_⟩
      intro a ha b hb
      simp only [List.mem_singleton] at hb
      subst hb
      rw [hst2]
      exact hk.2 a ha
    · intro c hc
      rcases List.mem_append.mp hc with hc | hc
      · have := h4 c hc
        omega
      · simp only [List.mem_singleton] at hc
        subst hc
        rw [hst2, hend]
        exact ⟨hk.1, Nat.lt_succ_self n⟩
  rw [Bool.not_eq_true] at c4
  rw [scanStep_eq_skip lines s n l c1 c2 c3 c4]
  refine ⟨?_, h2, h3, ?_⟩
  · intro k hk
    have := h1 k hk
    exact ⟨by omega, this.2⟩
  · intro c hc
    have := h4 c hc
    omega

lemma scan_inv_fold (lines : List (List Char)) :
    ∀ (ls : List (List Char)) (n : Nat) (s : ScanState), ScanInv n s →
      ScanInv (n + ls.length) (List.foldl (scanStep lines) s (List.enumFrom n ls)) := by
  intro ls
  induction ls with
  | nil => intro n s h; simpa [List.enumFrom] using h
  | cons l ls ih =>
    intro n s h
    have h3 := ih (n + 1) _ (scanStep_inv lines n l s h)
    simp only [List.enumFrom, List.foldl_cons]
    have harith : n + (l :: ls).length = n + 1 + ls.length := by
      simp [List.length_cons]; omega
    rw [harith]
    exact h3

/-- The pushed conflict list of the scanner is ordered and forward
spanning. -/
lemma extract_sorted (text : List Char) :
    List.Pairwise (fun a b => a.endLine < b.startLine) (extractMergeConflicts text) ∧
    ∀ c ∈ extractMergeConflicts text, c.startLine < c.endLine := by
  have h0 : ScanInv 0 initScan := by
    refine ⟨?_, ?_, ?_, ?_⟩ <;> simp [initScan]
  have h := scan_inv_fold (splitOnNl text) (splitOnNl text) 0 initScan h0
  unfold extractMergeConflicts
  simp only [List.enum] at h ⊢
  exact ⟨h.2.2.1, fun c hc => (h.2.2.2 c hc).1⟩

/-- Processing lines none of which starts with `=======` can never set
the separator index nor push a conflict. -/
lemma scan_no_sep (lines : List (List Char)) :
    ∀ (ls : List (List Char)) (n : Nat) (s : ScanState),
      s.separatorIndex = none →
      (∀ l ∈ ls, ("=======".data.isPrefixOf l) = false) →
      (List.foldl (scanStep lines) s (List.enumFrom n ls)).separatorIndex = none ∧
      (List.foldl (scanStep lines) s (List.enumFrom n ls)).conflicts = s.conflicts := by
  intro ls
  induction ls with
  | nil => intro n s hsep _; simp [List.enumFrom, hsep]
  | cons l ls ih =>
    intro n s hsep hml
    have hl : ("=======".data.isPrefixOf l) = false := hml l (List.mem_cons_self l ls)
    have hstep : (scanStep lines s (n, l)).separatorIndex = none ∧
        (scanStep lines s (n, l)).conflicts = s.conflicts := by
      by_cases c1 : ("<<<<<<<".data.isPrefixOf l) = true
      · rw [scanStep_eq_start lines s n l c1]
        exact ⟨hsep, rfl⟩
      rw [Bool.not_eq_true] at c1
      by_cases c2 : ("|||||||".data.isPrefixOf l) = true
      · rw [scanStep_eq_base lines s n l c1 c2]
        exact ⟨hsep, rfl⟩
      rw [Bool.not_eq_true] at c2
      rw [scanStep_eq_skip lines s n l c1 c2 (by simp [hl]) (by simp [hsep])]
      exact ⟨hsep, rfl⟩
    simp only [List.enumFrom, List.foldl_cons]
    obtain ⟨r1, r2⟩ := ih (n + 1) (scanStep lines s (n, l)) hstep.1
      (fun x hx => hml x (List.mem_cons_of_mem l hx))
    exact ⟨r1, r2.trans hstep.2⟩

/-- Without a `=======` line the scanner extracts nothing. -/
lemma extract_nil_of_no_sep_line (text : List Char)
    (h : ∀ l ∈ splitOnNl text, ("=======".data.isPrefixOf l) = false) :
    extractMergeConflicts text = [] := by
  unfold extractMergeConflicts
  have hs := scan_no_sep (splitOnNl text) (splitOnNl text) 0 initScan rfl h
  simp only [List.enum] at hs
  exact hs.2

/-! ### The claims -/

/-- C1: the claim says resolving the single conflict of
`"a\n<<<<<<< HEAD\nx\n=======\ny\n>>>>>>> branch\nb"` with the local side
yields `"a\nx\nb"`.  The code instead replaces the range up to the start
of the line after the end marker — consuming that trailing newline —
with the side text, which carries no trailing newline, so the result is
`"a\nxb"`: the resolved text is glued onto the following line. -/
theorem c1_resolve_local_glues_next_line :
    (extractMergeConflicts ("a\n<<<<<<< HEAD\nx\n=======\ny\n>>>>>>> branch\nb".data)).map
        (fun c => (c.current, c.incoming, c.startLine, c.endLine)) =
      [("x".data, "y".data, 1, 5)] ∧
    resolveWithCurrent ("a\n<<<<<<< HEAD\nx\n=======\ny\n>>>>>>> branch\nb".data) 0 =
      "a\nxb".data ∧
    resolveWithIncoming ("a\n<<<<<<< HEAD\nx\n=======\ny\n>>>>>>> branch\nb".data) 0 =
      "a\nyb".data ∧
    resolveWithCurrent ("a\n<<<<<<< HEAD\nx\n=======\ny\n>>>>>>> branch\nb".data) 0 ≠
      "a\nx\nb".data := by decide

/-- C2: a document in whose line decomposition no line starts with any of
the four conflict markers (so every occurrence of a marker string is in
the interior of a line) yields zero conflict regions from both the line
scanner and the regex parser. -/
theorem c2_interior_markers_no_regions (text : List Char)
    (h : ∀ l ∈ splitOnNl text,
        ("<<<<<<<".data.isPrefixOf l) = false ∧ ("|||||||".data.isPrefixOf l) = false ∧
        ("=======".data.isPrefixOf l) = false ∧ (">>>>>>>".data.isPrefixOf l) = false) :
    extractMergeConflicts text = [] ∧ parseMergeConflicts text = [] :=
  ⟨extract_nil_of_no_sep_line text (fun l hl => (h l hl).2.2.1),
   parse_nil_of_no_sep_line text (fun l hl => (h l hl).2.2.1)⟩

/-- C2 witness: a one-line document carrying all four marker strings
inside string literals produces no regions. -/
theorem c2_interior_markers_no_regions_witness :
    extractMergeConflicts
        ("s = \"a <<<<<<< b\"; t = \"c ======= d\"; u = \"e >>>>>>> f\"; v = \"g ||||||| h\"".data) = [] ∧
    parseMergeConflicts
        ("s = \"a <<<<<<< b\"; t = \"c ======= d\"; u = \"e >>>>>>> f\"; v = \"g ||||||| h\"".data) = [] :=
  c2_interior_markers_no_regions _ (by decide)

/-- C3 counterexample: on `"a\n<<<<<<< HEAD\nx"` — a start marker with no
following separator or end marker — extraction does yield zero regions,
but no malformed-conflict issue is reported: `extractMergeConflicts`
returns only the conflict array, so the issue list visible to the caller
is empty, not of length one as the claim asserts. -/
theorem c3_counterexample :
    ¬(extractMergeConflicts ("a\n<<<<<<< HEAD\nx".data) = [] ∧
      (extractionIssues ("a\n<<<<<<< HEAD\nx".data)).length = 1) := by decide

/-- C3 amended: a document containing a `<<<<<<<` start-marker line but
no `=======` (and no `>>>>>>>`) line yields zero regions, and the
dangling marker is silently dropped — the extraction surfaces no issue
to the caller. -/
theorem c3_dangling_start_silently_dropped (text : List Char)
    (_h1 : ∃ l ∈ splitOnNl text, ("<<<<<<<".data.isPrefixOf l) = true)
    (h2 : ∀ l ∈ splitOnNl text, ("=======".data.isPrefixOf l) = false)
    (_h3 : ∀ l ∈ splitOnNl text, (">>>>>>>".data.isPrefixOf l) = false) :
    extractMergeConflicts text = [] ∧ extractionIssues text = [] :=
  ⟨extract_nil_of_no_sep_line text h2, rfl⟩

/-- C3 witness: the dangling-start document. -/
theorem c3_dangling_start_silently_dropped_witness :
    extractMergeConflicts ("a\n<<<<<<< HEAD\nx".data) = [] ∧
    extractionIssues ("a\n<<<<<<< HEAD\nx".data) = [] :=
  c3_dangling_start_silently_dropped _ (by decide) (by decide) (by decide)

/-- C4 counterexample: the claim says resolving with `base` on a region
without a base section fails with an InvalidResolution error and leaves
the document unchanged.  On the single no-base conflict of
`"a\n<<<<<<< HEAD\nx\n=======\ny\n>>>>>>> branch\nb"`,
`resolveWithOriginal` instead modifies the document, producing exactly
what `resolveWithCurrent` produces. -/
theorem c4_counterexample :
    resolveWithOriginal ("a\n<<<<<<< HEAD\nx\n=======\ny\n>>>>>>> branch\nb".data) 0 ≠
      "a\n<<<<<<< HEAD\nx\n=======\ny\n>>>>>>> branch\nb".data ∧
    resolveWithOriginal ("a\n<<<<<<< HEAD\nx\n=======\ny\n>>>>>>> branch\nb".data) 0 =
      resolveWithCurrent ("a\n<<<<<<< HEAD\nx\n=======\ny\n>>>>>>> branch\nb".data) 0 := by
  decide

/-- C4 amended: requesting the base resolution for a region whose
`hasCommonAncestor` flag is false does not error — `resolveWithOriginal`
silently falls back to the region's current (local) text, performing the
same edit as `resolveWithCurrent`. -/
theorem c4_base_falls_back_to_current (text : List Char) (idx : Nat)
    (h : idx < (extractMergeConflicts text).length)
    (hb : (extractMergeConflicts text)[idx].hasCommonAncestor = false) :
    resolveWithOriginal text idx = resolveWithCurrent text idx := by
  unfold resolveWithOriginal resolveWithCurrent
  rw [List.get?_eq_get h]
  simp [hb]

/-- C4 witness: the fallback on the no-base document. -/
theorem c4_base_falls_back_to_current_witness :
    resolveWithOriginal ("a\n<<<<<<< HEAD\nx\n=======\ny\n>>>>>>> branch\nb".data) 0 =
      resolveWithCurrent ("a\n<<<<<<< HEAD\nx\n=======\ny\n>>>>>>> branch\nb".data) 0 :=
  c4_base_falls_back_to_current _ 0 (by decide) (by decide)

/-- C5: for every input, the line scanner's regions are pairwise
disjoint and strictly ordered (each region's end-marker line precedes
the next region's start-marker line) and each spans forward
(`startLine < endLine`); the regex parser's regions are likewise
pairwise non-overlapping in character offsets, strictly ascending, with
`start < stop` for each match. -/
theorem c5_regions_ordered_disjoint (text : List Char) :
    (List.Pairwise (fun a b => a.endLine < b.startLine) (extractMergeConflicts text) ∧
      ∀ c ∈ extractMergeConflicts text, c.startLine < c.endLine) ∧
    (List.Pairwise (fun a b => a.stop ≤ b.start) (parseMergeConflicts text) ∧
      ∀ c ∈ parseMergeConflicts text, c.start < c.stop) :=
  ⟨extract_sorted text, parseLoopF_sorted text.length text 0⟩

/-- C6: the three-way conflict with a base section extracts to exactly
one region with `hasCommonAncestor = true`, `current = "c1"`,
`original = "c0"`, `incoming = "c2"` (marker lines excluded from every
text field), and resolving it with the base succeeds, splicing in
`"c0"`. -/
theorem c6_base_conflict_extraction :
    extractMergeConflicts ("<<<<<<< HEAD\nc1\n||||||| base\nc0\n=======\nc2\n>>>>>>> b\n".data) =
      [⟨0, "c1".data, "c0".data, "c2".data, [], [], 0, 6,
        "<<<<<<< HEAD".data, ">>>>>>> b".data, true⟩] ∧
    resolveWithOriginal ("<<<<<<< HEAD\nc1\n||||||| base\nc0\n=======\nc2\n>>>>>>> b\n".data) 0 =
      "c0".data := by decide

/-- C7 counterexample: with two `|||||||` lines between the start marker
and the separator, the claim predicts `current = "a"` and
`original = "b\n||||||| b2\nc"` (first marker honored).  The code
overwrites `commonAncestorStart` at every `|||||||` line, so the last
marker wins and the extracted fields differ. -/
theorem c7_counterexample :
    (extractMergeConflicts
        ("<<<<<<< H\na\n||||||| b1\nb\n||||||| b2\nc\n=======\nd\n>>>>>>> x\n".data)).map
        (fun c => (c.current, c.original)) ≠
      [("a".data, "b\n||||||| b2\nc".data)] := by decide

/-- C7 amended: only the last base marker is honored.  For every
document made of marker-free context `P`, a `<<<<<<<` start line, a
segment `M` free of start and separator lines but containing at least
one `|||||||` base-marker line, the last base-marker line, a marker-free
segment `C`, the `=======` separator, incoming lines `D`, a `>>>>>>>`
end line and marker-free context `S`, extraction yields one region
whose localText is all of `M` — the earlier base markers and their
sections included — and whose baseText is `C`, the lines from after the
last base marker up to the separator. -/
theorem c7_last_base_marker_honored (text startL base2L sepL endL : List Char)
    (P M C D S : List (List Char))
    (hsplit : splitOnNl text =
      P ++ startL :: (M ++ base2L :: (C ++ sepL :: (D ++ endL :: S))))
    (hP : ∀ l ∈ P, noMarkerLine l)
    (hM : ∀ l ∈ M, noStartOrSepLine l)
    (_hMbase : ∃ l ∈ M, ("|||||||".data.isPrefixOf l) = true)
    (hC : ∀ l ∈ C, noMarkerLine l)
    (hD : ∀ l ∈ D, noMarkerLine l)
    (hS : ∀ l ∈ S, noMarkerLine l)
    (hst : ("<<<<<<<".data.isPrefixOf startL) = true)
    (hb2 : ("|||||||".data.isPrefixOf base2L) = true)
    (hb2a : ("<<<<<<<".data.isPrefixOf base2L) = false)
    (hsp : ("=======".data.isPrefixOf sepL) = true)
    (hsp1 : ("<<<<<<<".data.isPrefixOf sepL) = false)
    (hsp2 : ("|||||||".data.isPrefixOf sepL) = false)
    (hend : (">>>>>>>".data.isPrefixOf endL) = true)
    (hend1 : ("<<<<<<<".data.isPrefixOf endL) = false)
    (hend2 : ("|||||||".data.isPrefixOf endL) = false)
    (hend3 : ("=======".data.isPrefixOf endL) = false) :
    (extractMergeConflicts text).map
        (fun c => (c.current, c.original, c.hasCommonAncestor)) =
      [(List.intercalate ['\n'] M, List.intercalate ['\n'] C, true)] := by
  unfold extractMergeConflicts
  rw [hsplit, show initScan = (⟨none, none, none, none, []⟩ : ScanState) from rfl]
  simp only [List.enum]
  rw [List.enumFrom_append, List.foldl_append, foldl_seg_free _ P 0 _ hP]
  simp only [Nat.zero_add, List.enumFrom, List.foldl_cons]
  rw [scanStep_mk_start _ none none none none [] P.length startL hst]
  rw [List.enumFrom_append, List.foldl_append]
  obtain ⟨cas1, hM2⟩ := foldl_seg_nosep
    (P ++ startL :: (M ++ base2L :: (C ++ sepL :: (D ++ endL :: S)))) M
    (P.length + 1) (some P.length) none none [] hM
  rw [hM2]
  simp only [List.enumFrom, List.foldl_cons]
  rw [scanStep_mk_base _ (some P.length) none cas1 none []
    (P.length + 1 + M.length) base2L hb2a hb2]
  rw [List.enumFrom_append, List.foldl_append, foldl_seg_free _ C _ _ hC]
  simp only [List.enumFrom, List.foldl_cons]
  rw [scanStep_mk_sep _ P.length none (some (P.length + 1 + M.length)) none []
    (P.length + 1 + M.length + 1 + C.length) sepL hsp1 hsp2 hsp]
  rw [List.enumFrom_append, List.foldl_append, foldl_seg_free _ D _ _ hD]
  simp only [List.enumFrom, List.foldl_cons]
  rw [scanStep_mk_push _ P.length (P.length + 1 + M.length + 1 + C.length)
    (some (P.length + 1 + M.length)) _ []
    (P.length + 1 + M.length + 1 + C.length + 1 + D.length)
    endL hend1 hend2 hend3 hend]
  rw [foldl_seg_free _ S _ _ hS]
  have hcur : jsSlice (P ++ startL :: (M ++ base2L :: (C ++ sepL :: (D ++ endL :: S))))
      (P.length + 1) (P.length + 1 + M.length) = M :=
    jsSlice_middle _ (P ++ [startL]) M (base2L :: (C ++ sepL :: (D ++ endL :: S))) _ _
      (by simp)
      (by simp only [List.length_append, List.length_cons, List.length_nil])
      (by simp only [List.length_append, List.length_cons, List.length_nil])
  have horig : jsSlice (P ++ startL :: (M ++ base2L :: (C ++ sepL :: (D ++ endL :: S))))
      (P.length + 1 + M.length + 1) (P.length + 1 + M.length + 1 + C.length) = C :=
    jsSlice_middle _ (P ++ startL :: (M ++ [base2L])) C (sepL :: (D ++ endL :: S)) _ _
      (by simp)
      (by simp only [List.length_append, List.length_cons, List.length_nil]; omega)
      (by simp only [List.length_append, List.length_cons, List.length_nil]; omega)
  simp [hcur, horig, jsSliceOpt]

/-- C7 witness: the two-base-marker document, with `M = [a, ||||||| b1, b]`
and `C = [c]`. -/
theorem c7_last_base_marker_honored_witness :
    (extractMergeConflicts
        ("<<<<<<< H\na\n||||||| b1\nb\n||||||| b2\nc\n=======\nd\n>>>>>>> x\n".data)).map
        (fun c => (c.current, c.original, c.hasCommonAncestor)) =
      [("a\n||||||| b1\nb".data, "c".data, true)] :=
  c7_last_base_marker_honored _ "<<<<<<< H".data "||||||| b2".data "=======".data
    (">>>>>>> x".data) [] ["a".data, "||||||| b1".data, "b".data] ["c".data]
    ["d".data] [[]] (by decide) (by decide) (by decide) (by decide) (by decide)
    (by decide) (by decide) (by decide) (by decide) (by decide) (by decide)
    (by decide) (by decide) (by decide) (by decide) (by decide) (by decide)

/-- C8 counterexample: the regex parser of mergeHandler.ts detects no
conflict at all when a side is empty — its pattern needs distinct
newlines on both sides of the lazy groups — so the claim fails for it on
both the empty-local and the empty-incoming document. -/
theorem c8_counterexample :
    parseMergeConflicts ("<<<<<<< HEAD\n=======\ny\n>>>>>>> b\n".data) = [] ∧
    parseMergeConflicts ("<<<<<<< HEAD\nx\n=======\n>>>>>>> b\n".data) = [] := by decide

/-- C8 amended: a side contributing zero lines is a valid conflict for
the line scanner.  For every document consisting of marker-free context
`P`, a `<<<<<<<` start-marker line immediately followed by the
`=======` separator line, incoming lines `D`, a `>>>>>>>` end line and
marker-free trailing context `S`, extraction yields exactly one region
whose localText is the empty string (and analogously, when the end line
immediately follows the separator, one region whose incomingText is the
empty string).  The regex parser does not detect these conflicts: at
the minimal empty-local and empty-incoming documents it returns zero
regions. -/
theorem c8_empty_side_extraction :
    (∀ (text startL sepL endL : List Char) (P D S : List (List Char)),
        splitOnNl text = P ++ startL :: sepL :: (D ++ endL :: S) →
        (∀ l ∈ P, noMarkerLine l) → (∀ l ∈ D, noMarkerLine l) →
        (∀ l ∈ S, noMarkerLine l) →
        ("<<<<<<<".data.isPrefixOf startL) = true →
        ("=======".data.isPrefixOf sepL) = true →
        ("<<<<<<<".data.isPrefixOf sepL) = false →
        ("|||||||".data.isPrefixOf sepL) = false →
        (">>>>>>>".data.isPrefixOf endL) = true →
        ("<<<<<<<".data.isPrefixOf endL) = false →
        ("|||||||".data.isPrefixOf endL) = false →
        ("=======".data.isPrefixOf endL) = false →
        (extractMergeConflicts text).map
            (fun c => (c.current, c.incoming, c.hasCommonAncestor)) =
          [([], List.intercalate ['\n'] D, false)]) ∧
    (∀ (text startL sepL endL : List Char) (P A S : List (List Char)),
        splitOnNl text = P ++ startL :: (A ++ sepL :: endL :: S) →
        (∀ l ∈ P, noMarkerLine l) → (∀ l ∈ A, noMarkerLine l) →
        (∀ l ∈ S, noMarkerLine l) →
        ("<<<<<<<".data.isPrefixOf startL) = true →
        ("=======".data.isPrefixOf sepL) = true →
        ("<<<<<<<".data.isPrefixOf sepL) = false →
        ("|||||||".data.isPrefixOf sepL) = false →
        (">>>>>>>".data.isPrefixOf endL) = true →
        ("<<<<<<<".data.isPrefixOf endL) = false →
        ("|||||||".data.isPrefixOf endL) = false →
        ("=======".data.isPrefixOf endL) = false →
        (extractMergeConflicts text).map
            (fun c => (c.current, c.incoming, c.hasCommonAncestor)) =
          [(List.intercalate ['\n'] A, [], false)]) ∧
    parseMergeConflicts ("<<<<<<< HEAD\n=======\ny\n>>>>>>> b\n".data) = [] ∧
    parseMergeConflicts ("<<<<<<< HEAD\nx\n=======\n>>>>>>> b\n".data) = [] := by
  refine ⟨?_, ?_, by decide, by decide⟩
  · intro text startL sepL endL P D S hsplit hP hD hS hst hsp hsp1 hsp2
      hend hend1 hend2 hend3
    unfold extractMergeConflicts
    rw [hsplit, show initScan = (⟨none, none, none, none, []⟩ : ScanState) from rfl]
    simp only [List.enum]
    rw [List.enumFrom_append, List.foldl_append,
      foldl_seg_free _ P 0 _ hP]
    simp only [Nat.zero_add, List.enumFrom, List.foldl_cons]
    rw [scanStep_eq_start _ _ P.length startL hst]
    rw [scanStep_eq_sep _ _ (P.length + 1) sepL hsp1 hsp2 (by simp [hsp])]
    rw [List.enumFrom_append, List.foldl_append,
      foldl_seg_free _ D _ _ hD]
    simp only [List.enumFrom, List.foldl_cons]
    rw [scanStep_eq_push_full _ _ (P.length + 1 + 1 + D.length) endL hend1 hend2
      (by simp [hend3]) (by simp [hend]) (P.length + 1) P.length rfl rfl]
    rw [foldl_seg_free _ S _ _ hS]
    have hcur : jsSlice (P ++ startL :: sepL :: (D ++ endL :: S))
        (P.length + 1) (P.length + 1) = ([] : List (List Char)) :=
      jsSlice_eq_nil _ _ _ (le_refl _)
    have hinc : jsSlice (P ++ startL :: sepL :: (D ++ endL :: S))
        (P.length + 1 + 1) (P.length + 1 + 1 + D.length) = D :=
      jsSlice_middle _ (P ++ [startL, sepL]) D (endL :: S) _ _ (by simp)
        (by simp only [List.length_append, List.length_cons, List.length_nil])
        (by simp only [List.length_append, List.length_cons, List.length_nil])
    simp [hcur, hinc, List.intercalate]
  · intro text startL sepL endL P A S hsplit hP hA hS hst hsp hsp1 hsp2
      hend hend1 hend2 hend3
    unfold extractMergeConflicts
    rw [hsplit, show initScan = (⟨none, none, none, none, []⟩ : ScanState) from rfl]
    simp only [List.enum]
    rw [List.enumFrom_append, List.foldl_append,
      foldl_seg_free _ P 0 _ hP]
    simp only [Nat.zero_add, List.enumFrom, List.foldl_cons]
    rw [scanStep_eq_start _ _ P.length startL hst]
    rw [List.enumFrom_append, List.foldl_append,
      foldl_seg_free _ A _ _ hA]
    simp only [List.enumFrom, List.foldl_cons]
    rw [scanStep_eq_sep _ _ (P.length + 1 + A.length) sepL hsp1 hsp2 (by simp [hsp])]
    rw [scanStep_eq_push_full _ _ (P.length + 1 + A.length + 1) endL hend1 hend2
      (by simp [hend3]) (by simp [hend]) (P.length + 1 + A.length) P.length rfl rfl]
    rw [foldl_seg_free _ S _ _ hS]
    have hcur : jsSlice (P ++ startL :: (A ++ sepL :: endL :: S))
        (P.length + 1) (P.length + 1 + A.length) = A :=
      jsSlice_middle _ (P ++ [startL]) A (sepL :: endL :: S) _ _ (by simp)
        (by simp only [List.length_append, List.length_cons, List.length_nil])
        (by simp only [List.length_append, List.length_cons, List.length_nil])
    have hinc : jsSlice (P ++ startL :: (A ++ sepL :: endL :: S))
        (P.length + 1 + A.length + 1) (P.length + 1 + A.length + 1) =
        ([] : List (List Char)) :=
      jsSlice_eq_nil _ _ _ (le_refl _)
    simp [hcur, hinc, List.intercalate]

/-- C8 witness: the minimal empty-local and empty-incoming documents. -/
theorem c8_empty_side_extraction_witness :
    (extractMergeConflicts ("<<<<<<< HEAD\n=======\ny\n>>>>>>> b\n".data)).map
        (fun c => (c.current, c.incoming, c.hasCommonAncestor)) =
      [([], "y".data, false)] ∧
    (extractMergeConflicts ("<<<<<<< HEAD\nx\n=======\n>>>>>>> b\n".data)).map
        (fun c => (c.current, c.incoming, c.hasCommonAncestor)) =
      [("x".data, [], false)] :=
  ⟨c8_empty_side_extraction.1 _ "<<<<<<< HEAD".data "=======".data (">>>>>>> b".data)
      [] ["y".data] [[]] (by decide) (by decide) (by decide) (by decide) (by decide)
      (by decide) (by decide) (by decide) (by decide) (by decide) (by decide)
      (by decide),
   c8_empty_side_extraction.2.1 _ "<<<<<<< HEAD".data "=======".data (">>>>>>> b".data)
      [] ["x".data] [[]] (by decide) (by decide) (by decide) (by decide) (by decide)
      (by decide) (by decide) (by decide) (by decide) (by decide) (by decide)
      (by decide)⟩

/-- C9: two adjacent conflicts do extract as two distinct regions with
indices 0 and 1 (in both parsers), and resolving region 1 leaves
region 0 intact; but resolving region 0 with its local side glues `"x"`
onto region 1's start-marker line — the same dropped newline as in C1 —
after which extraction finds no conflict at all, so region 1 is no
longer resolvable. -/
theorem c9_adjacent_conflicts_resolution :
    (extractMergeConflicts
        ("<<<<<<< A\nx\n=======\ny\n>>>>>>> B\n<<<<<<< C\nu\n=======\nv\n>>>>>>> D\n".data)).map
        (fun c => (c.index, c.startLine, c.endLine, c.current, c.incoming)) =
      [(0, 0, 4, "x".data, "y".data), (1, 5, 9, "u".data, "v".data)] ∧
    (parseMergeConflicts
        ("<<<<<<< A\nx\n=======\ny\n>>>>>>> B\n<<<<<<< C\nu\n=======\nv\n>>>>>>> D\n".data)).length = 2 ∧
    resolveWithCurrent
        ("<<<<<<< A\nx\n=======\ny\n>>>>>>> B\n<<<<<<< C\nu\n=======\nv\n>>>>>>> D\n".data) 1 =
      "<<<<<<< A\nx\n=======\ny\n>>>>>>> B\nu".data ∧
    resolveWithCurrent
        ("<<<<<<< A\nx\n=======\ny\n>>>>>>> B\n<<<<<<< C\nu\n=======\nv\n>>>>>>> D\n".data) 0 =
      "x<<<<<<< C\nu\n=======\nv\n>>>>>>> D\n".data ∧
    extractMergeConflicts
        (resolveWithCurrent
          ("<<<<<<< A\nx\n=======\ny\n>>>>>>> B\n<<<<<<< C\nu\n=======\nv\n>>>>>>> D\n".data) 0) =
      [] := by decide

/-- C10: a document whose marker strings all sit strictly inside lines
makes the quick substring test `hasMergeConflicts` answer true while
`extractMergeConflicts` finds no region, so the two are not
equivalent. -/
theorem c10_has_conflicts_not_equiv_extract :
    hasMergeConflicts ("a<<<<<<<\nb=======\nc>>>>>>>".data) = true ∧
    extractMergeConflicts ("a<<<<<<<\nb=======\nc>>>>>>>".data) = [] := by decide

end MergeAI
